import Mathlib

/-!
Verification of the SeekSpider orchestration spec against the repository.

The repository snapshot contains the React frontend (under frontend/src) and
project documentation; the Plombery orchestration core (parameter resolver,
run registry, executor, scheduler loop, event bus, living in src/plombery of
the project) is not part of the snapshot, so those components are modelled
from the specification text, while every frontend behaviour is embedded
directly from the TypeScript source files.
-/

namespace SeekSpider

/-! ## Parameter resolver (spec section 4.1) -/

/-- Modelled from the spec: the Parameter Resolver of the orchestration core
(`resolve(pipeline, trigger_or_null, manual_params_or_null)` in
src/plombery/orchestrator, absent from the repository snapshot). A parameter
tier maps a field name to an optional value; the trigger and manual tiers may
themselves be absent (null). Priority, highest wins, per individual field:
manual > trigger default > pipeline schema default; a field unset at a higher
tier falls through to the next tier. -/
def resolveParam (schemaDefault : String → Option String)
    (trig : Option (String → Option String))
    (manual : Option (String → Option String)) (fieldName : String) : Option String :=
  match manual.bind (fun m => m fieldName) with
  | some v => some v
  | none =>
    match trig.bind (fun t => t fieldName) with
    | some v => some v
    | none => schemaDefault fieldName

/-! ## Run registry (spec section 4.2) -/

/-- Modelled from the spec: run status values of the orchestration core
(absent from the snapshot), spec section 3. -/
inductive RunStatus where
  | pending
  | running
  | completed
  | failed
  | cancelled
deriving DecidableEq, Repr

/-- Modelled from the spec: a run is "active" when its status is pending or
running (spec section 3, one-active-run invariant). -/
def RunStatus.isActive : RunStatus → Bool
  | .pending => true
  | .running => true
  | _ => false

/-- Modelled from the spec: the Run record of the Run Registry (absent from
the snapshot), restricted to the fields the registry invariant speaks about. -/
structure Run where
  id : Nat
  pipelineId : String
  status : RunStatus
deriving DecidableEq, Repr

/-- Modelled from the spec: the Run Registry state (absent from the
snapshot): the list of runs plus the monotonically increasing next run id. -/
structure Registry where
  runs : List Run
  nextId : Nat
deriving Repr

/-- Modelled from the spec: whether some run of the given pipeline is
currently pending or running. -/
def hasActiveRun (reg : Registry) (pid : String) : Bool :=
  reg.runs.any fun r => (r.pipelineId == pid) && r.status.isActive

/-- Runs of the given pipeline whose status is pending or running. -/
def activeRuns (reg : Registry) (pid : String) : List Run :=
  reg.runs.filter fun r => (r.pipelineId == pid) && r.status.isActive

/-- The registry invariant of spec section 3: at most one run with status in
pending or running per pipelineId. -/
def oneActiveInv (reg : Registry) : Prop :=
  ∀ pid, (activeRuns reg pid).length ≤ 1

/-- Modelled from the spec: result of `createRun` (absent from the
snapshot): either a freshly created pending run together with the new
registry state, or a Conflict with nothing created. -/
inductive CreateResult where
  | created (run : Run) (reg : Registry)
  | conflict
deriving Repr

/-- Modelled from the spec: `createRun(pipelineId, ...)` of the Run Registry
(absent from the snapshot). Atomically checks the one-active-run-per-pipeline
invariant and, if satisfied, inserts a new Run with status pending and
returns it; otherwise returns Conflict and creates nothing. -/
def createRun (reg : Registry) (pid : String) : CreateResult :=
  if hasActiveRun reg pid then .conflict
  else
    let r : Run := ⟨reg.nextId, pid, .pending⟩
    .created r ⟨r :: reg.runs, reg.nextId + 1⟩

/-- Modelled from the spec: the legal run status transition graph of
`transition(runId, newStatus)` (absent from the snapshot):
pending to running, running to completed or failed or cancelled. -/
def legalTransition : RunStatus → RunStatus → Bool
  | .pending, .running => true
  | .running, .completed => true
  | .running, .failed => true
  | .running, .cancelled => true
  | _, _ => false

/-- Replace the status of the first run carrying the given id. -/
def setRunStatus : List Run → Nat → RunStatus → List Run
  | [], _, _ => []
  | r :: rs, rid, s =>
    if r.id == rid then ⟨r.id, r.pipelineId, s⟩ :: rs
    else r :: setRunStatus rs rid s

/-- Modelled from the spec: `transition(runId, newStatus)` of the Run
Registry (absent from the snapshot); an illegal transition or an unknown run
is a fault, modelled as `none`. -/
def transition (reg : Registry) (rid : Nat) (s : RunStatus) : Option Registry :=
  match reg.runs.find? (fun r => r.id == rid) with
  | none => none
  | some r =>
    if legalTransition r.status s then some ⟨setRunStatus reg.runs rid s, reg.nextId⟩
    else none

/-- The registry mutations of the orchestration core: a successful
`createRun` or a successful `transition`. -/
inductive RegStep : Registry → Registry → Prop where
  | createStep (reg : Registry) (pid : String) (run : Run) (reg' : Registry) :
      createRun reg pid = .created run reg' → RegStep reg reg'
  | transitionStep (reg : Registry) (rid : Nat) (s : RunStatus) (reg' : Registry) :
      transition reg rid s = some reg' → RegStep reg reg'
/-! ## Executor (spec section 4.3) -/

/-- Modelled from the spec: a task definition as seen by the Executor
(absent from the snapshot): its id together with its opaque behaviour,
reduced to whether the task callable returns normally or raises. -/
structure TaskDef where
  id : String
  succeeds : Bool
deriving DecidableEq, Repr

/-- Modelled from the spec: terminal status of a TaskRun record created by
the Executor (spec section 3). -/
inductive TaskRunStatus where
  | completed
  | failed
deriving DecidableEq, Repr

/-- Modelled from the spec: the TaskRun record appended to a Run by the
Executor; a TaskRun exists exactly for the tasks the Executor invoked. -/
structure TaskRunRec where
  taskId : String
  status : TaskRunStatus
deriving DecidableEq, Repr

/-- Modelled from the spec: terminal status of a whole run as decided by the
Executor (spec section 4.3 steps 2 to 4). -/
inductive RunOutcome where
  | completed
  | failed
  | cancelled
deriving DecidableEq, Repr

/-- Modelled from the spec: the task loop of the Executor (absent from the
snapshot), spec section 4.3. `cancel i` is the per-run cancellation flag as
observed before starting the task at position `i`; each task is invoked in
pipeline order, a normal return is recorded as a completed TaskRun, a raise
is recorded as a failed TaskRun after which iteration stops (fail-fast) and
the run is failed; a cancellation observed at a task boundary stops the run
as cancelled without invoking further tasks. -/
def execRun (cancel : Nat → Bool) : Nat → List TaskDef → List TaskRunRec × RunOutcome
  | _, [] => ([], .completed)
  | i, t :: rest =>
    if cancel i then ([], .cancelled)
    else if t.succeeds then
      let r := execRun cancel (i + 1) rest
      (⟨t.id, .completed⟩ :: r.1, r.2)
    else ([⟨t.id, .failed⟩], .failed)

/-! ## Event bus (spec section 4.4) -/

/-- Modelled from the spec: the per-run log channel of the Event Bus (absent
from the snapshot) assigns each appended LogEntry the next sequence number
for that run; `emitSeqs n` is the list of sequence numbers present after `n`
appends, each new entry numbered one past the current count. -/
def emitSeqs : Nat → List Nat
  | 0 => []
  | n + 1 => emitSeqs n ++ [(emitSeqs n).length + 1]

/-! ## Frontend repository: getLogs (src/unnamed/part_000, lines 244-266) -/

/-- Embedding of the JavaScript `split` on the newline character, as used by
`getLogs` on the raw JSONL response body: the body is modelled as a list of
characters and every newline starts a new segment, so a trailing newline
produces a final empty segment. -/
def splitLines : List Char → List (List Char)
  | [] => [[]]
  | c :: cs =>
    if c = '\n' then [] :: splitLines cs
    else
      match splitLines cs with
      | [] => [[c]]
      | l :: ls => (c :: l) :: ls

/-- Embedding of the `rawLogs.split('\n').map((line, i) => ...)` loop of
`getLogs`: each segment is parsed (JSON.parse plus the timestamp Date
conversion, abstracted as `parseLine`, which fails on any segment that is
not valid JSON), is given the id `i` of its position, and a single parse
failure makes the whole call throw (modelled as `none`). -/
def parseSegs {α : Type} (parseLine : List Char → Option α) :
    Nat → List (List Char) → Option (List (Nat × α))
  | _, [] => some []
  | i, s :: rest =>
    match parseLine s with
    | none => none
    | some v => (parseSegs parseLine (i + 1) rest).map (fun l => (i, v) :: l)

/-- Embedding of `getLogs` from src/unnamed/part_000 (lines 244-266): an
empty response body yields the empty list, otherwise the body is split on
newlines and every segment is JSON-parsed and given its index as id. -/
def getLogsModel {α : Type} (parseLine : List Char → Option α) (body : List Char) :
    Option (List (Nat × α)) :=
  if body = [] then some []
  else parseSegs parseLine 0 (splitLines body)

/-! ## Frontend LogViewer (frontend/src/components/LogViewer.tsx) -/

/-- Embedding of `onWsMessage` in LogViewer.tsx (lines 51-61): a live
websocket log entry is appended with `log.id = oldLogs.length`; only the ids
are tracked here. -/
def pushWsId (ids : List Nat) : List Nat := ids ++ [ids.length]

/-- The id list after `m` live websocket messages have been pushed onto an
initial id list. -/
def afterPushes (ids : List Nat) : Nat → List Nat
  | 0 => ids
  | m + 1 => pushWsId (afterPushes ids m)

/-! ## Frontend ManualRunDialog (frontend/src/components/ManualRunDialog.tsx) -/

/-- Embedding of one entry of the 422 error payload declared by the
`Error422` interface in src/unnamed/part_000 (lines 19-30): a field path
(`loc`), a message and a rule type. -/
structure ErrorDetail where
  loc : List String
  msg : String
  errType : String
deriving DecidableEq, Repr

/-- Embedding of the error object of a failed runPipeline mutation as
consumed by ManualRunDialog.tsx: an HTTP status plus the detail list (only
meaningful when the status is 422). -/
structure RunPipelineError where
  status : Nat
  detail : List ErrorDetail
deriving DecidableEq, Repr

/-- Embedding of the `formErrors` computation in ManualRunDialog.tsx (lines
31-39): when the mutation failed with status 422, every detail entry is
mapped to the pair of its `loc` path joined with "." and its message;
otherwise the result is undefined (`none`). -/
def formErrors (isError : Bool) (err : RunPipelineError) : Option (List (String × String)) :=
  if isError && (err.status == 422) then
    some (err.detail.map fun d => (String.intercalate "." d.loc, d.msg))
  else none

/-! ## Scheduler and triggers (spec sections 3 and 4.5) -/

/-- Modelled from the spec: the schedule-relevant state of a trigger (absent
from the snapshot): its paused flag and its Schedule Clock, a pure function
from the current instant to the next fire instant. -/
structure TriggerSched where
  paused : Bool
  schedule : Nat → Nat

/-- Modelled from the spec: the schedule-relevant state of a pipeline
(absent from the snapshot): the scheduleEnabled flag. -/
structure PipelineSched where
  scheduleEnabled : Bool
deriving DecidableEq, Repr

/-- Modelled from the spec: the derived nextFireTime of a trigger (absent
from the snapshot): defined exactly when the pipeline's scheduleEnabled flag
is true and the trigger is not paused, and always recomputed from the
current instant. -/
def derivedNextFire (p : PipelineSched) (t : TriggerSched) (now : Nat) : Option Nat :=
  if p.scheduleEnabled && !t.paused then some (t.schedule now) else none

/-- Modelled from the spec: `setScheduleEnabled(pipelineId, bool)` (absent
from the snapshot), restricted to the flag it flips. -/
def setScheduleEnabled (_ : PipelineSched) (b : Bool) : PipelineSched := ⟨b⟩

/-! ## Frontend TriggersList (frontend/src/components/TriggersList.tsx) -/

/-- Embedding of what the Next Fire Time table cell of TriggersList.tsx
(lines 53-68) renders: a Schedule off badge, a Paused badge, or the
formatted next fire time. -/
inductive NextFireCell where
  | scheduleOff
  | pausedBadge
  | fireTime (shown : String)
deriving DecidableEq, Repr

/-- Embedding of the Next Fire Time cell logic of TriggersList.tsx: when the
pipeline's schedule is disabled a Schedule off badge is shown, else when the
trigger is paused a Paused badge is shown, else the trigger's next fire time
(or a dash when it is null). -/
def nextFireCellView (scheduleEnabled paused : Bool) (nft : Option String) : NextFireCell :=
  if !scheduleEnabled then .scheduleOff
  else if paused then .pausedBadge
  else .fireTime (match nft with | some s => s | none => "-")

/-- Whether the cell displays an actual next fire time rather than a badge. -/
def NextFireCell.isFireTime : NextFireCell → Bool
  | .fireTime _ => true
  | _ => false

/-! ## Cancellation (spec sections 4.3 and 6; frontend run view in src/unnamed/part_006) -/

/-- Modelled from the spec: result of `cancelRun(runId)` (absent from the
snapshot): ok, Conflict (run exists but is not pending or running), or
NotFound. -/
inductive CancelResult where
  | ok
  | conflict
  | notFound
deriving DecidableEq, Repr

/-- Modelled from the spec: `cancelRun(runId)` (absent from the snapshot):
ok when the run is currently pending or running, Conflict when the run
exists but is not, NotFound when no run with that id exists. -/
def cancelRun (reg : Registry) (rid : Nat) : CancelResult :=
  match reg.runs.find? (fun r => r.id == rid) with
  | none => .notFound
  | some r => if r.status.isActive then .ok else .conflict

/-- Embedding of the cancel button guard of RunViewPage in
src/unnamed/part_006 (lines 113-121): the Cancel Run button is rendered only
while the run status is the string running. -/
def cancelButtonShown (status : String) : Bool := status == "running"

/-- Embedding of the cancel URL built by `cancelRunMutation` in
src/unnamed/part_006 (lines 29-43). -/
def cancelUrl (runId : Nat) : String := "/api/runs/" ++ toString runId ++ "/cancel"

/-! ## Frontend JsonSchemaForm checkbox (frontend/src/components/JsonSchemaForm.tsx) -/

/-- Embedding of the DOM form entries produced by the checkbox renderer of
JsonSchemaForm.tsx (lines 30-52) for one boolean field: a hidden input with
value "false" always comes first, and the checkbox input of the same name
follows it; the checkbox declares no value attribute, so when it is checked
the browser submits the HTML default value "on", and when it is unchecked it
submits nothing. -/
def checkboxFormEntries (name : String) (checked : Bool) : List (String × String) :=
  (name, "false") :: (if checked then [(name, "on")] else [])

/-- Embedding of `Object.fromEntries` as applied to `FormData.entries()` in
the ManualRunDialog.tsx submit handler (lines 95-111): duplicate keys
collapse with the last entry winning, so looking a key up returns the value
of its last occurrence. -/
def fromEntriesGet (entries : List (String × String)) (key : String) : Option String :=
  (entries.reverse.find? fun e => e.1 == key).map Prod.snd

/-! ## Frontend RunsList (frontend/src/components/RunsList.tsx) -/

/-- Embedding of a row of the RunsList table, reduced to the fields its
websocket update handler inspects. -/
structure RunRow where
  id : Nat
  status : String
deriving DecidableEq, Repr

/-- Embedding of the `setRuns` updater inside `onWsMessage` of RunsList.tsx
(lines 31-64): a message with status running is prepended unconditionally;
for any other status the first row with the same id is replaced in place,
and only when no row matches is the new row prepended. -/
def applyRunUpdate (run : RunRow) (prev : List RunRow) : List RunRow :=
  if run.status == "running" then run :: prev
  else
    match prev.findIdx? (fun r => r.id == run.id) with
    | some i => prev.set i run
    | none => run :: prev

theorem legalTransition_active {a b : RunStatus} (h : legalTransition a b = true)
    (hb : b.isActive = true) : a.isActive = true := by
  cases a <;> cases b <;> simp_all [legalTransition, RunStatus.isActive]

theorem hasActiveRun_false_filter {reg : Registry} {pid : String}
    (h : hasActiveRun reg pid = false) : activeRuns reg pid = [] := by
  unfold hasActiveRun at h
  unfold activeRuns
  rw [List.any_eq_false] at h
  rw [List.filter_eq_nil_iff]
  intro a ha
  exact h a ha

theorem setRunStatus_active_le (pid : String) :
    ∀ (runs : List Run) (rid : Nat) (s : RunStatus),
    (∀ r, runs.find? (fun x => x.id == rid) = some r → legalTransition r.status s = true) →
    (List.filter (fun x => (x.pipelineId == pid) && x.status.isActive)
        (setRunStatus runs rid s)).length
      ≤ (List.filter (fun x => (x.pipelineId == pid) && x.status.isActive) runs).length := by
  intro runs
  induction runs with
  | nil => intro rid s _; simp [setRunStatus]
  | cons r rs ih =>
    intro rid s hfind
    by_cases hid : (r.id == rid) = true
    · have hfound : (r :: rs).find? (fun x => x.id == rid) = some r := by
        simp [List.find?, hid]
      have hleg : legalTransition r.status s = true := hfind r hfound
      have hset : setRunStatus (r :: rs) rid s = ⟨r.id, r.pipelineId, s⟩ :: rs := by
        simp [setRunStatus, hid]
      rw [hset]
      by_cases hps : ((r.pipelineId == pid) && s.isActive) = true
      · have hsact : s.isActive = true := (Bool.and_eq_true_iff.mp hps).2
        have hmatch : (r.pipelineId == pid) = true := (Bool.and_eq_true_iff.mp hps).1
        have hract : r.status.isActive = true := legalTransition_active hleg hsact
        have hpr : ((r.pipelineId == pid) && r.status.isActive) = true := by
          rw [hmatch, hract]; rfl
        simp only [List.filter_cons]
        simp [hps, hpr]
      · simp only [Bool.not_eq_true] at hps
        simp only [List.filter_cons]
        simp only [hps]
        cases hq : ((r.pipelineId == pid) && r.status.isActive)
        · simp
        · simp only [if_true, if_false, Bool.false_eq_true, ite_false, ite_true,
            List.length_cons]
          exact Nat.le_succ_of_le (Nat.le_refl _)
    · have hstep : setRunStatus (r :: rs) rid s = r :: setRunStatus rs rid s := by
        simp [setRunStatus, hid]
      have hfind' : ∀ x, rs.find? (fun y => y.id == rid) = some x →
          legalTransition x.status s = true := by
        intro x hx
        apply hfind x
        simp [List.find?, hid, hx]
      rw [hstep]
      simp only [List.filter_cons]
      cases hq : ((r.pipelineId == pid) && r.status.isActive)
      · simp only [Bool.false_eq_true, ite_false]
        exact ih rid s hfind'
      · simp only [ite_true, List.length_cons]
        exact Nat.succ_le_succ (ih rid s hfind')

theorem createRun_preserves (reg : Registry) (pid : String) (run : Run) (reg' : Registry)
    (h : createRun reg pid = .created run reg') (hinv : oneActiveInv reg) :
    oneActiveInv reg' := by
  unfold createRun at h
  by_cases hact : hasActiveRun reg pid = true
  · simp [hact] at h
  · simp only [Bool.not_eq_true] at hact
    simp only [hact, Bool.false_eq_true, ite_false, CreateResult.created.injEq] at h
    obtain ⟨hrun, hreg⟩ := h
    subst hreg
    intro pid'
    unfold activeRuns
    rw [List.filter_cons]
    by_cases hpp : (pid == pid') = true
    · have hpid : pid = pid' := eq_of_beq hpp
      subst hpid
      have hnil : activeRuns reg pid = [] := hasActiveRun_false_filter hact
      unfold activeRuns at hnil
      rw [hnil]
      split
      · simp
      · simp
    · simp only [Bool.not_eq_true] at hpp
      simp only [hpp, Bool.false_and, Bool.false_eq_true, ite_false]
      exact hinv pid'

theorem transition_preserves (reg : Registry) (rid : Nat) (s : RunStatus) (reg' : Registry)
    (h : transition reg rid s = some reg') (hinv : oneActiveInv reg) :
    oneActiveInv reg' := by
  unfold transition at h
  cases hfind : reg.runs.find? (fun r => r.id == rid) with
  | none => rw [hfind] at h; simp at h
  | some r =>
    rw [hfind] at h
    by_cases hleg : legalTransition r.status s = true
    · simp only [hleg, ite_true, Option.some.injEq] at h
      subst h
      intro pid
      have hle := setRunStatus_active_le pid reg.runs rid s
        (fun x hx => by rw [hfind] at hx; cases hx; exact hleg)
      exact le_trans hle (hinv pid)
    · simp only [Bool.not_eq_true] at hleg
      simp [hleg] at h

theorem regStep_preserves (reg reg' : Registry) (h : RegStep reg reg')
    (hinv : oneActiveInv reg) : oneActiveInv reg' := by
  cases h with
  | createStep a b c hc => exact createRun_preserves _ _ _ _ hc hinv
  | transitionStep a b c ht => exact transition_preserves _ _ _ _ ht hinv

/-- Claim C1: for every pipeline, trigger-or-null and manual-params-or-null
triple, the resolved parameter set assigns to each field the value from the
highest-priority tier that defines that field, with priority
manual > trigger default > pipeline schema default; a field unset at a
higher tier falls through to the next tier. -/
theorem C1_param_priority (schemaDefault : String → Option String)
    (trig manual : Option (String → Option String)) (f : String) :
    (∀ v, manual.bind (fun m => m f) = some v →
      resolveParam schemaDefault trig manual f = some v) ∧
    (manual.bind (fun m => m f) = none →
      ∀ v, trig.bind (fun t => t f) = some v →
        resolveParam schemaDefault trig manual f = some v) ∧
    (manual.bind (fun m => m f) = none → trig.bind (fun t => t f) = none →
      resolveParam schemaDefault trig manual f = schemaDefault f) := by
  refine ⟨fun v hv => ?_, fun hm v hv => ?_, fun hm ht => ?_⟩
  · unfold resolveParam
    rw [hv]
  · unfold resolveParam
    rw [hm, hv]
  · unfold resolveParam
    rw [hm, ht]

theorem C1_witness :
    resolveParam (fun _ => some "schema-default") (some (fun _ => some "trigger-default"))
      (some (fun _ => none)) "region" = some "trigger-default" :=
  (C1_param_priority (fun _ => some "schema-default") (some (fun _ => some "trigger-default"))
    (some (fun _ => none)) "region").2.1 rfl "trigger-default" rfl

/-- Claim C2: the Run Registry holds at most one run with status in the
pending or running set per pipelineId, the invariant being preserved by
every registry mutation (createRun and transition), and createRun checks the
invariant and returns Conflict, creating nothing, when a pending or running
run already exists for that pipeline. -/
theorem C2_one_active_run :
    (∀ reg reg', oneActiveInv reg → RegStep reg reg' → oneActiveInv reg') ∧
    (∀ reg pid, hasActiveRun reg pid = true → createRun reg pid = CreateResult.conflict) ∧
    (∀ reg pid run reg', createRun reg pid = CreateResult.created run reg' →
      run.status = RunStatus.pending ∧ reg'.runs = run :: reg.runs) := by
  refine ⟨fun reg reg' hinv hstep => regStep_preserves reg reg' hstep hinv,
    fun reg pid hact => ?_, fun reg pid run reg' h => ?_⟩
  · unfold createRun
    simp [hact]
  · unfold createRun at h
    by_cases hact : hasActiveRun reg pid = true
    · simp [hact] at h
    · simp only [Bool.not_eq_true] at hact
      simp only [hact, Bool.false_eq_true, ite_false, CreateResult.created.injEq] at h
      obtain ⟨hrun, hreg⟩ := h
      subst hrun
      subst hreg
      exact ⟨rfl, rfl⟩

theorem C2_witness :
    oneActiveInv (Registry.mk [Run.mk 0 "seek_spider" RunStatus.running] 1) ∧
    createRun (Registry.mk [Run.mk 0 "seek_spider" RunStatus.running] 1) "seek_spider"
      = CreateResult.conflict :=
  ⟨fun pid => le_trans (List.length_filter_le _ _) (by decide),
   C2_one_active_run.2.1 (Registry.mk [Run.mk 0 "seek_spider" RunStatus.running] 1)
     "seek_spider" (by decide)⟩

theorem execRun_prefix (cancel : Nat → Bool) :
    ∀ (ts : List TaskDef) (i : Nat),
    (execRun cancel i ts).1.map TaskRunRec.taskId
      = (ts.map TaskDef.id).take (execRun cancel i ts).1.length := by
  intro ts
  induction ts with
  | nil => intro i; simp [execRun]
  | cons t rest ih =>
    intro i
    show (execRun cancel i (t :: rest)).1.map TaskRunRec.taskId
      = ((t :: rest).map TaskDef.id).take (execRun cancel i (t :: rest)).1.length
    rw [execRun]
    by_cases hc : cancel i = true
    · simp [hc]
    · simp only [Bool.not_eq_true] at hc
      by_cases hs : t.succeeds = true
      · simp only [hc, Bool.false_eq_true, ite_false, hs, ite_true, List.map_cons,
          List.length_cons, List.take_succ_cons, List.map]
        rw [ih (i + 1)]
      · simp only [Bool.not_eq_true] at hs
        simp [hc, hs]

theorem execRun_first_failure (pre post : List TaskDef) (bad : TaskDef)
    (hpre : ∀ t ∈ pre, t.succeeds = true) (hbad : bad.succeeds = false) :
    ∀ i,
    (execRun (fun _ => false) i (pre ++ bad :: post)).1.length = pre.length + 1 ∧
    (execRun (fun _ => false) i (pre ++ bad :: post)).2 = RunOutcome.failed := by
  induction pre with
  | nil =>
    intro i
    simp [execRun, hbad]
  | cons t rest ih =>
    intro i
    have ht : t.succeeds = true := hpre t (List.mem_cons_self t rest)
    have hrest : ∀ x ∈ rest, x.succeeds = true :=
      fun x hx => hpre x (List.mem_cons_of_mem t hx)
    have ihi := ih hrest (i + 1)
    rw [List.cons_append, execRun]
    simp only [Bool.false_eq_true, ite_false, ht, ite_true]
    constructor
    · simp only [List.length_cons]
      rw [ihi.1]
    · exact ihi.2

/-- Claim C3: for every run in which the task at position k (1-indexed)
fails — here k = pre.length + 1, the tasks before it all succeeding — the
TaskRun list produced by the Executor has length exactly k, the run status
is failed, the TaskRun list is exactly the ids of the first k tasks (so no
task at a position greater than k is ever invoked), and in general for any
task list, cancellation flag and start index, the TaskRun list is a
positional prefix of the pipeline's task list, which is what the frontend
RunsTasksList relies on when pairing run.tasks_run at index i with
pipeline.tasks at index i. -/
theorem C3_fail_fast (pre post : List TaskDef) (bad : TaskDef)
    (hpre : ∀ t ∈ pre, t.succeeds = true) (hbad : bad.succeeds = false) :
    (execRun (fun _ => false) 0 (pre ++ bad :: post)).1.length = pre.length + 1 ∧
    (execRun (fun _ => false) 0 (pre ++ bad :: post)).2 = RunOutcome.failed ∧
    (execRun (fun _ => false) 0 (pre ++ bad :: post)).1.map TaskRunRec.taskId
      = ((pre ++ bad :: post).map TaskDef.id).take (pre.length + 1) ∧
    (∀ (ts : List TaskDef) (cancel : Nat → Bool) (i : Nat),
      (execRun cancel i ts).1.map TaskRunRec.taskId
        = (ts.map TaskDef.id).take (execRun cancel i ts).1.length) := by
  have hmain := execRun_first_failure pre post bad hpre hbad 0
  refine ⟨hmain.1, hmain.2, ?_, fun ts cancel i => execRun_prefix cancel ts i⟩
  have hpref := execRun_prefix (fun _ => false) (pre ++ bad :: post) 0
  rw [hmain.1] at hpref
  exact hpref

theorem C3_witness :
    (execRun (fun _ => false) 0
      ([⟨"scrape", true⟩] ++ (⟨"analyze", false⟩ : TaskDef) :: [⟨"store", true⟩])).1.length
      = 2 :=
  (C3_fail_fast [⟨"scrape", true⟩] [⟨"store", true⟩] ⟨"analyze", false⟩
    (by decide) rfl).1

theorem splitLines_ne_nil : ∀ cs : List Char, splitLines cs ≠ [] := by
  intro cs
  induction cs with
  | nil => simp [splitLines]
  | cons c cs ih =>
    rw [splitLines]
    by_cases hc : c = '\n'
    · rw [if_pos hc]; simp
    · rw [if_neg hc]
      split
      · simp
      · simp

theorem splitLines_append_newline : ∀ xs : List Char,
    splitLines (xs ++ [ '\n' ]) = splitLines xs ++ [[]] := by
  intro xs
  induction xs with
  | nil => simp [splitLines]
  | cons c cs ih =>
    rw [List.cons_append, splitLines, splitLines]
    by_cases hc : c = '\n'
    · rw [if_pos hc, if_pos hc, ih]
      rfl
    · rw [if_neg hc, if_neg hc, ih]
      cases h : splitLines cs with
      | nil => exact absurd h (splitLines_ne_nil cs)
      | cons l ls => rfl

theorem parseSegs_none_iff {α : Type} (parseLine : List Char → Option α) :
    ∀ (segs : List (List Char)) (i : Nat),
    parseSegs parseLine i segs = none ↔ ∃ s ∈ segs, parseLine s = none := by
  intro segs
  induction segs with
  | nil => intro i; simp [parseSegs]
  | cons s rest ih =>
    intro i
    rw [parseSegs]
    cases hp : parseLine s with
    | none => simp [hp]
    | some v =>
      rw [Option.map_eq_none']
      rw [ih (i + 1)]
      simp [hp]

theorem parseSegs_some {α : Type} (parseLine : List Char → Option α) :
    ∀ (segs : List (List Char)) (i : Nat) (l : List (Nat × α)),
    parseSegs parseLine i segs = some l →
    l.map Prod.fst = List.range' i segs.length ∧
    segs.map parseLine = l.map (fun e => some e.2) := by
  intro segs
  induction segs with
  | nil =>
    intro i l h
    simp only [parseSegs, Option.some.injEq] at h
    subst h
    simp [List.range']
  | cons s rest ih =>
    intro i l h
    rw [parseSegs] at h
    cases hp : parseLine s with
    | none => rw [hp] at h; simp at h
    | some v =>
      rw [hp] at h
      cases hrest : parseSegs parseLine (i + 1) rest with
      | none => rw [hrest] at h; simp at h
      | some l' =>
        rw [hrest] at h
        simp only [Option.map_some', Option.some.injEq] at h
        subst h
        obtain ⟨h1, h2⟩ := ih (i + 1) l' hrest
        constructor
        · simp only [List.map_cons, List.length_cons]
          rw [h1, List.range'_succ]
        · simp only [List.map_cons, hp]
          rw [h2]

/-- Claim C10: getLogs returns the empty list if and only if the historical
logs response body is the empty string; for every non-empty body it returns
exactly one entry per newline-separated segment, with id equal to the
segment's index and the segment's parsed content (the JSON parse plus the
timestamp-to-Date conversion being abstracted as `parseLine`), and it throws
(modelled as `none`) exactly when some segment — including the empty segment
produced by a trailing newline — fails to parse as JSON. -/
theorem C10_get_logs :
    (∀ (α : Type) (parseLine : List Char → Option α), getLogsModel parseLine [] = some []) ∧
    (∀ (α : Type) (parseLine : List Char → Option α) (body : List Char), body ≠ [] →
      getLogsModel parseLine body ≠ some []) ∧
    (∀ (α : Type) (parseLine : List Char → Option α) (body : List Char), body ≠ [] →
      (getLogsModel parseLine body = none ↔ ∃ s ∈ splitLines body, parseLine s = none)) ∧
    (∀ (α : Type) (parseLine : List Char → Option α) (body : List Char) (l : List (Nat × α)),
      body ≠ [] → getLogsModel parseLine body = some l →
      l.map Prod.fst = List.range (splitLines body).length ∧
      (splitLines body).map parseLine = l.map (fun e => some e.2)) ∧
    (∀ (α : Type) (parseLine : List Char → Option α) (xs : List Char),
      parseLine [] = none → getLogsModel parseLine (xs ++ [ '\n' ]) = none) := by
  refine ⟨fun α parseLine => by simp [getLogsModel],
    fun α parseLine body hb hsome => ?_,
    fun α parseLine body hb => ?_,
    fun α parseLine body l hb h => ?_,
    fun α parseLine xs hparse => ?_⟩
  · unfold getLogsModel at hsome
    rw [if_neg hb] at hsome
    obtain ⟨h1, _⟩ := parseSegs_some parseLine (splitLines body) 0 [] hsome
    have hzero : (splitLines body).length = 0 := by
      have := List.range'_eq_nil.mp h1.symm
      simpa using this
    exact splitLines_ne_nil body (List.length_eq_zero.mp hzero)
  · unfold getLogsModel
    rw [if_neg hb]
    exact parseSegs_none_iff parseLine (splitLines body) 0
  · unfold getLogsModel at h
    rw [if_neg hb] at h
    obtain ⟨h1, h2⟩ := parseSegs_some parseLine (splitLines body) 0 l h
    rw [List.range_eq_range']
    exact ⟨h1, h2⟩
  · have hne : xs ++ [ '\n' ] ≠ [] := by simp
    unfold getLogsModel
    rw [if_neg hne]
    rw [parseSegs_none_iff]
    refine ⟨[], ?_, hparse⟩
    rw [splitLines_append_newline]
    simp

theorem C10_witness :
    getLogsModel (fun s => if s = ([] : List Char) then none else some 0) [ 'a', '\n' ] = none :=
  C10_get_logs.2.2.2.2 Nat (fun s => if s = ([] : List Char) then none else some 0)
    [ 'a' ] (by decide)

theorem emitSeqs_eq (n : Nat) : emitSeqs n = (List.range n).map (fun k => k + 1) := by
  induction n with
  | zero => rfl
  | succ n ih =>
    simp only [emitSeqs, ih, List.length_map, List.length_range, List.range_succ,
      List.map_append]
    rfl

theorem afterPushes_range (n m : Nat) : afterPushes (List.range n) m = List.range (n + m) := by
  induction m with
  | zero => rfl
  | succ m ih =>
    simp only [afterPushes, ih, pushWsId, List.length_range]
    rw [← List.range_succ]
    rfl

/-- Claim C4: per-run log sequence numbers assigned by the Event Bus after n
appends are exactly 1..n, gap-free and strictly increasing in emission
order; in the frontend, getLogs gives the i-th historical JSONL line the id
i and each live websocket entry receives id equal to the current list
length, so after one history fetch followed by any number m of pushed
messages the ids are exactly 0,1,2,... up to the final length — consecutive,
duplicate-free and strictly increasing in delivery order. -/
theorem C4_log_sequence :
    (∀ n, emitSeqs n = (List.range n).map (fun k => k + 1)) ∧
    (∀ (α : Type) (parseLine : List Char → Option α) (body : List Char) (l : List (Nat × α)),
      getLogsModel parseLine body = some l →
      ∀ m, afterPushes (l.map Prod.fst) m = List.range (l.length + m)) := by
  refine ⟨emitSeqs_eq, fun α parseLine body l h m => ?_⟩
  by_cases hb : body = []
  · subst hb
    unfold getLogsModel at h
    simp only [ite_true, Option.some.injEq] at h
    have hl : l = [] := h.symm
    subst hl
    have hr := afterPushes_range 0 m
    rw [List.range_zero] at hr
    simpa using hr
  · unfold getLogsModel at h
    rw [if_neg hb] at h
    obtain ⟨h1, _⟩ := parseSegs_some parseLine (splitLines body) 0 l h
    have hlen : l.length = (splitLines body).length := by
      have := congrArg List.length h1
      simpa using this
    rw [h1, ← List.range_eq_range', ← hlen]
    exact afterPushes_range l.length m

theorem C4_witness :
    afterPushes (([((0 : Nat), (5 : Nat))]).map Prod.fst) 2 = List.range (1 + 2) :=
  C4_log_sequence.2 Nat (fun _ => some 5) [ 'x' ] [(0, 5)] (by decide) 2

/-- Claim C5: for every failed runPipeline request, field-level validation
errors are produced if and only if the response status is 422; each detail
entry is mapped to exactly one form error keyed by its loc path segments
joined with a dot (supporting arbitrarily nested field paths), and any
non-422 failure yields no field-level entries (only the generic error
message is shown). -/
theorem C5_validation_errors :
    (∀ (isErr : Bool) (err : RunPipelineError),
      (formErrors isErr err).isSome = (isErr && (err.status == 422))) ∧
    (∀ (isErr : Bool) (err : RunPipelineError), err.status ≠ 422 →
      formErrors isErr err = none) ∧
    (∀ (err : RunPipelineError) (l : List (String × String)),
      formErrors true err = some l →
      l.length = err.detail.length ∧
      ∀ i : Nat, l[i]? = (err.detail[i]?).map
        (fun d => (String.intercalate "." d.loc, d.msg))) ∧
    String.intercalate "." ["params", "range", "from"] = "params.range.from" := by
  refine ⟨fun isErr err => ?_, fun isErr err h => ?_, fun err l h => ?_, by decide⟩
  · unfold formErrors
    by_cases hc : (isErr && (err.status == 422)) = true
    · rw [if_pos hc, hc]; rfl
    · rw [if_neg hc]
      simp only [Bool.not_eq_true] at hc
      rw [hc]; rfl
  · have hne : (err.status == 422) = false := beq_eq_false_iff_ne.mpr h
    unfold formErrors
    rw [hne]
    simp
  · unfold formErrors at h
    by_cases hc : (err.status == 422) = true
    · simp only [Bool.true_and, hc, ite_true, Option.some.injEq] at h
      subst h
      refine ⟨List.length_map _ _, fun i => ?_⟩
      rw [List.getElem?_map]
    · simp only [Bool.true_and, hc, Bool.false_eq_true, ite_false] at h
      cases h

theorem C5_witness :
    formErrors true (RunPipelineError.mk 500 []) = none :=
  C5_validation_errors.2.1 true (RunPipelineError.mk 500 []) (by decide)

/-- Claim C6: a trigger's nextFireTime is defined if and only if its
pipeline's scheduleEnabled flag is true and the trigger's paused flag is
false; after setScheduleEnabled(P, false) the value is null, and after a
later setScheduleEnabled(P, true) it is recomputed from the current instant
(never from a stale pre-disable value); the frontend TriggersList mirrors
this by displaying a next fire time exactly when scheduleEnabled is true and
the trigger is not paused. -/
theorem C6_next_fire_time :
    (∀ (p : PipelineSched) (t : TriggerSched) (now : Nat),
      (derivedNextFire p t now).isSome = (p.scheduleEnabled && !t.paused)) ∧
    (∀ (p : PipelineSched) (t : TriggerSched) (now : Nat),
      derivedNextFire (setScheduleEnabled p false) t now = none) ∧
    (∀ (p : PipelineSched) (t : TriggerSched) (now : Nat),
      derivedNextFire (setScheduleEnabled (setScheduleEnabled p false) true) t now
        = if t.paused then none else some (t.schedule now)) ∧
    (∀ (se pa : Bool) (nft : Option String),
      (nextFireCellView se pa nft).isFireTime = (se && !pa)) := by
  refine ⟨fun p t now => ?_, fun p t now => ?_, fun p t now => ?_, fun se pa nft => ?_⟩
  · unfold derivedNextFire
    by_cases hc : (p.scheduleEnabled && !t.paused) = true
    · rw [if_pos hc, hc]; rfl
    · rw [if_neg hc]
      simp only [Bool.not_eq_true] at hc
      rw [hc]; rfl
  · simp [derivedNextFire, setScheduleEnabled]
  · cases hp : t.paused <;> simp [derivedNextFire, setScheduleEnabled, hp]
  · cases se <;> cases pa <;> cases nft <;> rfl

/-- Claim C7: cancelRun(runId) yields ok when the run is currently pending
or running, Conflict when the run exists but is not currently pending or
running (never silently ignored), and NotFound when no run with that id
exists; the frontend offers cancellation only while run.status is the
string running and posts to the per-run cancel endpoint. -/
theorem C7_cancel_run :
    (∀ (reg : Registry) (rid : Nat) (r : Run),
      reg.runs.find? (fun x => x.id == rid) = some r →
      cancelRun reg rid
        = if r.status.isActive then CancelResult.ok else CancelResult.conflict) ∧
    (∀ (reg : Registry) (rid : Nat),
      reg.runs.find? (fun x => x.id == rid) = none →
      cancelRun reg rid = CancelResult.notFound) ∧
    (∀ s : String, cancelButtonShown s = true ↔ s = "running") ∧
    cancelUrl 12 = "/api/runs/12/cancel" := by
  refine ⟨fun reg rid r h => ?_, fun reg rid h => ?_, fun s => beq_iff_eq, by decide⟩
  · unfold cancelRun
    rw [h]
  · unfold cancelRun
    rw [h]

theorem C7_witness :
    cancelRun (Registry.mk [Run.mk 3 "seek_spider" RunStatus.completed] 4) 3
      = CancelResult.conflict :=
  C7_cancel_run.1 (Registry.mk [Run.mk 3 "seek_spider" RunStatus.completed] 4) 3
    (Run.mk 3 "seek_spider" RunStatus.completed) (by decide)

/-- Claim C8 as frozen asserts that a checked checkbox submits the value
"true". The checkbox input rendered by JsonSchemaForm declares no value
attribute, so a checked checkbox submits the HTML default value "on" (which
then overrides the hidden input's "false" in Object.fromEntries): at the
concrete boolean field run_post_processing, checked, the submitted value is
not "true". -/
theorem C8_counterexample :
    ¬ (fromEntriesGet (checkboxFormEntries "run_post_processing" true) "run_post_processing"
        = some "true") := by decide

/-- Claim C8 (amended): for every boolean field rendered by JsonSchemaForm,
the submitted manual parameter set always contains an explicit value for
that field: "false" when the checkbox is unchecked (supplied by the hidden
input of the same name) and "on" — the HTML default submission value of a
checkbox that declares no value attribute — when it is checked (the
checkbox entry overriding the hidden one when FormData entries are
collapsed via Object.fromEntries), so a manual run never leaves a boolean
field unset and an explicit falsy manual value always reaches the
resolver's highest tier. -/
theorem C8_checkbox_explicit_value (name : String) (checked : Bool) :
    fromEntriesGet (checkboxFormEntries name checked) name
      = some (if checked then "on" else "false") := by
  cases checked <;> simp [checkboxFormEntries, fromEntriesGet]

/-- Claim C9: in RunsList's run-update handler, every incoming message with
status running prepends a new row unconditionally — so when a row with the
same id is already present the displayed list contains duplicate run ids —
while for every other status an existing row with the same run id is
replaced in place, preserving the list length and every other row, and only
when no row matches is the new row prepended. -/
theorem C9_runs_list_update :
    (∀ (run : RunRow) (prev : List RunRow), run.status = "running" →
      applyRunUpdate run prev = run :: prev) ∧
    (∀ (run : RunRow) (prev : List RunRow), run.status = "running" →
      run.id ∈ prev.map RunRow.id →
      2 ≤ ((applyRunUpdate run prev).map RunRow.id).count run.id) ∧
    (∀ (run : RunRow) (prev : List RunRow) (i : Nat), run.status ≠ "running" →
      prev.findIdx? (fun r => r.id == run.id) = some i →
      applyRunUpdate run prev = prev.set i run ∧
      (applyRunUpdate run prev).length = prev.length ∧
      ∀ j : Nat, j ≠ i → (applyRunUpdate run prev)[j]? = prev[j]?) ∧
    (∀ (run : RunRow) (prev : List RunRow), run.status ≠ "running" →
      prev.findIdx? (fun r => r.id == run.id) = none →
      applyRunUpdate run prev = run :: prev) := by
  have hrunning : ∀ (run : RunRow) (prev : List RunRow), run.status = "running" →
      applyRunUpdate run prev = run :: prev := by
    intro run prev h
    unfold applyRunUpdate
    rw [if_pos (beq_iff_eq.mpr h)]
  refine ⟨hrunning, fun run prev h hmem => ?_, fun run prev i h hfind => ?_,
    fun run prev h hfind => ?_⟩
  · rw [hrunning run prev h]
    rw [List.map_cons, List.count_cons_self]
    have hpos : 0 < (prev.map RunRow.id).count run.id := List.count_pos_iff.mpr hmem
    exact Nat.succ_le_succ hpos
  · have hne : (run.status == "running") = false := beq_eq_false_iff_ne.mpr h
    have happ : applyRunUpdate run prev = prev.set i run := by
      unfold applyRunUpdate
      rw [hne]
      simp only [Bool.false_eq_true, ite_false, hfind]
    refine ⟨happ, ?_, fun j hj => ?_⟩
    · rw [happ]
      exact List.length_set prev i run
    · rw [happ]
      exact List.getElem?_set_ne (fun he => hj he.symm)
  · have hne : (run.status == "running") = false := beq_eq_false_iff_ne.mpr h
    unfold applyRunUpdate
    rw [hne]
    simp only [Bool.false_eq_true, ite_false, hfind]

theorem C9_witness :
    applyRunUpdate (RunRow.mk 7 "running") [RunRow.mk 7 "running"]
      = [RunRow.mk 7 "running", RunRow.mk 7 "running"] :=
  C9_runs_list_update.1 (RunRow.mk 7 "running") [RunRow.mk 7 "running"] rfl

end SeekSpider
